import Mathlib

/-! Shallow embedding of the RemNote flashcard generator core
(`src/remnote_formatter.py`, `src/card_generator.py`, `src/llm_client.py`).

Text is modelled as `List Char` (Python `str`), wrapped into Lean `String`
at the API boundary.  Python's `str.replace(pat, rep)` (left-to-right,
non-overlapping) is embedded once per pattern shape: `esc2` for the
two-character tokens escaped to `x· ·y`, `escRef` for the three-character
reference opener `#[[`, and `expandNewlines` for the `\n`-marker expansion
used by multi-line cards.  Curly braces in string literals are written with
the `\x7b` / `\x7d` escapes throughout.
-/

/-- Substring scanner: `starts t s` is true when `t` is an initial segment
of `s` (used to express occurrence of a syntax token at a position). -/
def starts : List Char → List Char → Bool
  | [], _ => true
  | _ :: _, [] => false
  | a :: t, b :: s => a == b && starts t s

/-- Occurrence test: `hasTok t s` is true when the token `t` occurs as a
contiguous substring of `s` (Python's `t in s`). -/
def hasTok (t : List Char) : List Char → Bool
  | [] => starts t []
  | c :: rest => starts t (c :: rest) || hasTok t rest

/-- Embedding of `text.replace(a+b, a+' '+b)` for a two-character token
`ab`, as used by `RemNoteFormatter._escape_special_chars`
(src/remnote_formatter.py:295-307): the token is replaced by the same two
characters with a single space inserted between them, scanning left to
right without overlap. -/
def esc2 (a b : Char) : List Char → List Char
  | x :: y :: rest =>
    if x = a ∧ y = b then a :: ' ' :: b :: esc2 a b rest
    else x :: esc2 a b (y :: rest)
  | s => s

/-- Embedding of `text.replace('#[[', '# [[')`
(src/remnote_formatter.py:301). -/
def escRef : List Char → List Char
  | x :: y :: z :: rest =>
    if x = '#' ∧ y = '[' ∧ z = '[' then '#' :: ' ' :: '[' :: '[' :: escRef rest
    else x :: escRef (y :: z :: rest)
  | s => s

/-- Embedding of `back.replace('\\n', '\n    ')`
(src/remnote_formatter.py:243): the two-character marker backslash-n is
expanded to a real newline followed by four spaces. -/
def expandNewlines : List Char → List Char
  | '\\' :: 'n' :: rest => '\n' :: ' ' :: ' ' :: ' ' :: ' ' :: expandNewlines rest
  | c :: rest => c :: expandNewlines rest
  | [] => []

/-- Scanner for the closing part of a cloze span: after at least one
non-`}` body character has been read, succeed exactly when the first `}`
encountered is immediately followed by a second `}` (the regex tail
`[^\x7d]+\x7d\x7d` of `src/remnote_formatter.py:223`). -/
def clozeClose : List Char → Bool
  | '\x7d' :: '\x7d' :: _ => true
  | '\x7d' :: _ => false
  | _ :: rest => clozeClose rest
  | [] => false

/-- Does a well-formed cloze span `\x7b\x7b...\x7d\x7d` (with a non-empty
body free of `\x7d`) begin at the head of `s`?  This is one candidate
match position of the regex `\{\{([^\x7d]+)\}\}`. -/
def clozeAt (s : List Char) : Bool :=
  match s with
  | '\x7b' :: '\x7b' :: rest =>
    match rest with
    | [] => false
    | '\x7d' :: _ => false
    | _ :: body => clozeClose body
  | _ => false

/-- Embedding of `re.search(r'\{\{([^\x7d]+)\}\}', text)` as used for cloze
validation (src/remnote_formatter.py:223-225 and 313-314): the regex
matches somewhere iff a well-formed span begins at some position. -/
def hasValidClozeB : List Char → Bool
  | [] => false
  | c :: rest => clozeAt (c :: rest) || hasValidClozeB rest

/-- The seven token replacements of
`RemNoteFormatter._escape_special_chars` (src/remnote_formatter.py:295-307)
applied in the source dictionary's insertion order:
`::`, `>>`, `<<`, `;;`, `<>`, `#[[`, `]]`. -/
def tokensEsc (s : List Char) : List Char :=
  esc2 ']' ']' (escRef (esc2 '<' '>' (esc2 ';' ';' (esc2 '<' '<' (esc2 '>' '>' (esc2 ':' ':' s))))))

/-- The conditional curly-brace escaping of
`src/remnote_formatter.py:309-315`: when both `\x7b\x7b` and `\x7d\x7d`
occur in the (already token-escaped) text but no well-formed cloze span
does, break the brace pairs with spaces. -/
def clozeBraceFix (s : List Char) : List Char :=
  if hasTok ['\x7b', '\x7b'] s && hasTok ['\x7d', '\x7d'] s && !hasValidClozeB s
  then esc2 '\x7d' '\x7d' (esc2 '\x7b' '\x7b' s)
  else s

/-- Embedding of `RemNoteFormatter._escape_special_chars`
(src/remnote_formatter.py:270-321) as a pure text function (the method's
only other effect is a statistics counter).  The early return for empty
text is semantics-preserving since every pass maps `[]` to `[]`. -/
def escapeChars (s : List Char) : List Char :=
  clozeBraceFix (tokensEsc s)

/-- String-level wrapper of `_escape_special_chars`. -/
def escapeSpecialChars (text : String) : String :=
  String.mk (escapeChars text.data)

/-- Enumeration `CardType` (src/card_generator.py:30-40). -/
inductive CardType where
  | concept
  | basic
  | cloze
  | descriptor
  | multiline_basic
  | multiline_concept
  | multiline_descriptor
  | list_answer
  | multiple_choice
deriving DecidableEq

/-- The `.value` strings of the `CardType` enum members. -/
def CardType.value : CardType → String
  | .concept => "concept"
  | .basic => "basic"
  | .cloze => "cloze"
  | .descriptor => "descriptor"
  | .multiline_basic => "multiline_basic"
  | .multiline_concept => "multiline_concept"
  | .multiline_descriptor => "multiline_descriptor"
  | .list_answer => "list_answer"
  | .multiple_choice => "multiple_choice"

/-- Enumeration `CardDirection` (src/card_generator.py:43-48). -/
inductive CardDirection where
  | forward
  | backward
  | bidirectional
  | disabled
deriving DecidableEq

/-- The `.value` strings of the `CardDirection` enum members. -/
def CardDirection.value : CardDirection → String
  | .forward => "forward"
  | .backward => "backward"
  | .bidirectional => "bidirectional"
  | .disabled => "disabled"

/-- The `Flashcard` dataclass (src/card_generator.py:51-81) with its
declared defaults.  `use_triple_delimiter` is not a declared field of the
dataclass; the formatter probes it with `hasattr`, which is false unless
the attribute was set dynamically, so it is modelled as a flag defaulting
to `false`.  The derived `source_hash` is modelled separately below. -/
structure Flashcard where
  card_type : CardType
  front : String
  back : String
  parent : Option String := none
  tags : List String := []
  difficulty : String := "intermediate"
  direction : CardDirection := CardDirection.forward
  list_items : List String := []
  correct_choice_index : Nat := 0
  extra_detail : Option String := none
  is_multiline : Bool := false
  use_triple_delimiter : Bool := false

/-- The content string hashed by `Flashcard.__post_init__`
(src/card_generator.py:83-90): front, back, type value and direction value
joined by `||`, with the list items joined by `,` appended (after another
`||`) when the list is non-empty. -/
def contentKey (card : Flashcard) : String :=
  card.front ++ "||" ++ card.back ++ "||" ++ card.card_type.value ++ "||" ++ card.direction.value
    ++ (if !card.list_items.isEmpty then "||" ++ String.intercalate "," card.list_items else "")

/-- The fingerprint `hashlib.md5(content.encode()).hexdigest()[:8]`
(src/card_generator.py:90).  MD5 lives in Python's standard library, not in
this repository, so the digest is kept as an explicit function parameter;
every property proved below holds for an arbitrary digest function. -/
def sourceHash (md5hex8 : String → String) (card : Flashcard) : String :=
  md5hex8 (contentKey card)

/-- Embedding of `RemNoteFormatter._format_cloze`
(src/remnote_formatter.py:213-229): when the front lacks a well-formed
cloze span it is returned as-is ("treat as regular text"), and when a span
is present it is likewise returned as-is, so both branches yield the raw
front text. -/
def formatCloze (card : Flashcard) : String :=
  if !hasValidClozeB card.front.data then card.front
  else card.front

/-- Embedding of `RemNoteFormatter._format_multiline_concept`
(src/remnote_formatter.py:231-244). -/
def formatMultilineConcept (card : Flashcard) : String :=
  let front := escapeSpecialChars card.front
  if card.use_triple_delimiter then front ++ " :::"
  else
    let back := escapeSpecialChars card.back
    front ++ " ::\n    " ++ String.mk (expandNewlines back.data)

/-- Embedding of `RemNoteFormatter._format_list_answer`
(src/remnote_formatter.py:246-255).  With non-empty `list_items` the
method returns only `front >>1.`; the intended `else` branch was swallowed
by a comment on line 253, so with empty `list_items` the method falls
through and returns Python `None`, which the callers interpolate into the
output line as the text `None`. -/
def formatListAnswer (card : Flashcard) : String :=
  let front := escapeSpecialChars card.front
  if !card.list_items.isEmpty then front ++ " >>1."
  else "None"

/-- Embedding of `RemNoteFormatter._format_multiple_choice`
(src/remnote_formatter.py:257-268). -/
def formatMultipleChoice (card : Flashcard) : String :=
  let front := escapeSpecialChars card.front
  if card.list_items.length > 1 then front ++ " >>A)"
  else front ++ " >> " ++ escapeSpecialChars card.back

/-- Embedding of `RemNoteFormatter._format_card`
(src/remnote_formatter.py:151-211): disabled direction short-circuits to
`=-` for every type, then the type/direction table dispatches. -/
def formatCard (card : Flashcard) : String :=
  let front := escapeSpecialChars card.front
  let back := escapeSpecialChars card.back
  if card.direction = CardDirection.disabled then front ++ " =- " ++ back
  else
    match card.card_type with
    | CardType.concept =>
      match card.direction with
      | CardDirection.forward => front ++ " :> " ++ back
      | CardDirection.backward => front ++ " :< " ++ back
      | _ => front ++ " :: " ++ back
    | CardType.basic =>
      match card.direction with
      | CardDirection.backward => front ++ " << " ++ back
      | CardDirection.bidirectional => front ++ " <> " ++ back
      | _ => front ++ " >> " ++ back
    | CardType.cloze => formatCloze card
    | CardType.descriptor =>
      match card.direction with
      | CardDirection.backward => front ++ " ;< " ++ back
      | CardDirection.forward => front ++ " ;> " ++ back
      | _ => front ++ " ;; " ++ back
    | CardType.multiline_concept => formatMultilineConcept card
    | CardType.list_answer => formatListAnswer card
    | CardType.multiple_choice => formatMultipleChoice card
    | _ => front ++ " >> " ++ back

/-- Python truthiness of `card.parent` (`if card.parent:`,
src/remnote_formatter.py:104): a parent key is present when the field is a
non-empty string. -/
def parentKey (card : Flashcard) : Option String :=
  match card.parent with
  | some p => if p = "" then none else some p
  | none => none

/-- Append a card under its parent in the insertion-ordered grouping
built by `_format_hierarchical` (the `defaultdict(list)` of
src/remnote_formatter.py:100-107): Python dicts preserve first-insertion
order of keys, so the grouping is an association list. -/
def addToHier (h : List (String × List Flashcard)) (p : String) (card : Flashcard) :
    List (String × List Flashcard) :=
  match h with
  | [] => [(p, [card])]
  | (q, cs) :: rest =>
    if q = p then (q, cs ++ [card]) :: rest
    else (q, cs) :: addToHier rest p card

/-- The grouping loop of `_format_hierarchical`
(src/remnote_formatter.py:103-107): cards with a truthy parent are grouped
under it, the others are root cards, both in input order. -/
def splitCards (cards : List Flashcard) : List (String × List Flashcard) × List Flashcard :=
  cards.foldl
    (fun acc card =>
      match parentKey card with
      | some p => (addToHier acc.1 p card, acc.2)
      | none => (acc.1, acc.2 ++ [card]))
    ([], [])

/-- `hierarchy.get(k, [])` on the association list. -/
def hierGet (h : List (String × List Flashcard)) (k : String) : List Flashcard :=
  match h with
  | [] => []
  | (q, cs) :: rest => if q = k then cs else hierGet rest k

/-- `k in hierarchy` on the association list. -/
def hierHasKey (h : List (String × List Flashcard)) (k : String) : Bool :=
  match h with
  | [] => false
  | (q, _) :: rest => q == k || hierHasKey rest k

/-- The root-card loop of `_format_hierarchical`
(src/remnote_formatter.py:111-122): each root card is emitted as a
`# `-line, and when its front or back is a key of the grouping, the cards
grouped under the front followed by those grouped under the back are
emitted beneath it with four spaces of indentation (no recursion into
grandchildren). -/
def rootLines (hier : List (String × List Flashcard)) : List Flashcard → List String
  | [] => []
  | card :: rest =>
    let line := "# " ++ formatCard card
    let childLines :=
      if hierHasKey hier card.front || hierHasKey hier card.back then
        (hierGet hier card.front ++ hierGet hier card.back).map
          (fun child => "    # " ++ formatCard child)
      else []
    (line :: childLines) ++ rootLines hier rest

/-- The remaining-parents loop of `_format_hierarchical`
(src/remnote_formatter.py:124-133): every parent group is emitted as a
top-level `# parent` line with its children indented beneath it.  The
`processed_parents` set starts empty — it is not seeded with the parents
already handled by the root-card loop — and is threaded through exactly as
in the source. -/
def remainingLines : List (String × List Flashcard) → List String → List String
  | [], _ => []
  | (p, children) :: rest, processed =>
    if processed.contains p then remainingLines rest processed
    else
      (("# " ++ p) :: children.map (fun child => "    # " ++ formatCard child))
        ++ remainingLines rest (processed ++ [p])

/-- Embedding of `RemNoteFormatter._format_hierarchical`
(src/remnote_formatter.py:93-135). -/
def formatHierarchical (cards : List Flashcard) : String :=
  let split := splitCards cards
  String.intercalate "\n" (rootLines split.1 split.2 ++ remainingLines split.1 [])

/-- Embedding of `RemNoteFormatter._format_flat`
(src/remnote_formatter.py:137-149). -/
def formatFlat (cards : List Flashcard) : String :=
  String.intercalate "\n"
    (cards.map (fun card =>
      let formatted := formatCard card
      let withTags :=
        if !card.tags.isEmpty then
          formatted ++ " " ++ String.intercalate " " (card.tags.map (fun t => "#" ++ t))
        else formatted
      "# " ++ withTags))

/-- Embedding of `RemNoteFormatter.format_cards`
(src/remnote_formatter.py:60-91) as a pure text function (statistics are
reset and recomputed on the side and do not influence the returned text):
the empty card list returns the empty string before either layout runs. -/
def formatCards (cards : List Flashcard) (hierarchy : Bool) : String :=
  if cards.isEmpty then ""
  else if hierarchy then formatHierarchical cards
  else formatFlat cards

/-- The session state of `CardGenerator` relevant to deduplication
(src/card_generator.py:119-137): the set `generated_cards` of seen
fingerprints and the `total_cards` and `duplicates_avoided` counters of
`generation_stats` (the remaining counters do not interact with these). -/
structure GenState where
  generatedCards : Finset String
  totalCards : Nat
  duplicatesAvoided : Nat
deriving DecidableEq

/-- The freshly initialised state (src/card_generator.py:130-137). -/
def initState : GenState :=
  { generatedCards := ∅, totalCards := 0, duplicatesAvoided := 0 }

/-- Embedding of `CardGenerator._is_unique_card`
(src/card_generator.py:409-414), which also increments the
duplicates-avoided counter on a hit; the card enters only through its
fingerprint string. -/
def isUniqueCard (st : GenState) (h : String) : Bool × GenState :=
  if h ∈ st.generatedCards then
    (false, { st with duplicatesAvoided := st.duplicatesAvoided + 1 })
  else (true, st)

/-- Embedding of `CardGenerator._register_card`
(src/card_generator.py:416-419). -/
def registerCard (st : GenState) (h : String) : GenState :=
  { st with generatedCards := insert h st.generatedCards,
            totalCards := st.totalCards + 1 }

/-- The guarded accept pattern used at every candidate-card site of
`CardGenerator.generate_cards` (src/card_generator.py:159-207):
`if self._is_unique_card(card): cards.append(card); self._register_card(card)`.
Returns whether the card was accepted together with the new state. -/
def submitCard (st : GenState) (h : String) : Bool × GenState :=
  match isUniqueCard st h with
  | (true, st') => (true, registerCard st' h)
  | (false, st') => (false, st')

/-- A whole `generate_cards` run (including its recursion into subtopics)
mutates the dedup state only through the guarded accept pattern, once per
candidate card in order; a session is therefore a fold of `submitCard`
over the candidates' fingerprints. -/
def runSession (st : GenState) (hs : List String) : GenState :=
  hs.foldl (fun s h => (submitCard s h).2) st

/-- Embedding of `CardGenerator.reset_stats` (src/card_generator.py:540-549):
the fingerprint set is cleared and the statistics dictionary rebuilt at
zero. -/
def resetStats (_ : GenState) : GenState := initState

/-- The invariant claimed for the generator state: the total-cards counter
equals the number of distinct fingerprints seen. -/
def statsInv (st : GenState) : Prop :=
  st.totalCards = st.generatedCards.card

instance (st : GenState) : Decidable (statsInv st) := by
  unfold statsInv; infer_instance

/-- Outcome of one underlying request made by the function wrapped in
`LLMClient._retry_with_backoff`: success, a `RateLimitError`, or any other
exception (src/llm_client.py:157-175). -/
inductive ReqResult where
  | ok (response : String)
  | rateLimited
  | failed
deriving DecidableEq

/-- The exception finally raised by `_retry_with_backoff`.
`RateLimitError` is a subclass of `LLMError` (src/llm_client.py:47-54), so
both constructors are generation failures; the exhausted-rate-limit branch
re-raises the `RateLimitError` itself (line 167) while the generic branch
wraps into a plain `LLMError` (lines 175 and 177). -/
inductive LLMErr where
  | rateLimitError
  | llmError
deriving DecidableEq

/-- Every value of `LLMErr` is an `LLMError` in Python's class hierarchy
(`class RateLimitError(LLMError)`, src/llm_client.py:52). -/
def LLMErr.isLLMError : LLMErr → Bool := fun _ => true

/-- Embedding of the loop of `LLMClient._retry_with_backoff`
(src/llm_client.py:155-177).  `f n` is the outcome of invoking the wrapped
function on loop iteration `n`; `d` is `config.retry_delay`; `attempt` is
the current 0-based iteration index and `remaining` the number of loop
iterations left (initially `config.retry_attempts`).  The result carries
the returned value or raised exception, the number of invocations made,
and the list of back-off delays slept, in order.  The `remaining = 0` base
case is the fall-through to line 177 (reachable only with zero configured
attempts, where `last_exception` is `None` and a plain `LLMError` is
raised); `remaining = 1` means `attempt == retry_attempts - 1`, where both
failure branches re-raise instead of sleeping. -/
def retryGo (f : Nat → ReqResult) (d : ℚ) (attempt : Nat) :
    Nat → Except LLMErr String × Nat × List ℚ
  | 0 => (Except.error LLMErr.llmError, 0, [])
  | remaining + 1 =>
    match f attempt with
    | ReqResult.ok s => (Except.ok s, 1, [])
    | ReqResult.rateLimited =>
      if remaining = 0 then (Except.error LLMErr.rateLimitError, 1, [])
      else
        let r := retryGo f d (attempt + 1) remaining
        (r.1, r.2.1 + 1, d * 2 ^ attempt :: r.2.2)
    | ReqResult.failed =>
      if remaining = 0 then (Except.error LLMErr.llmError, 1, [])
      else
        let r := retryGo f d (attempt + 1) remaining
        (r.1, r.2.1 + 1, d * 2 ^ attempt :: r.2.2)

/-- `_retry_with_backoff` itself: run the loop from attempt 0 with the
configured number of attempts. -/
def retryWithBackoff (f : Nat → ReqResult) (d : ℚ) (retryAttempts : Nat) :
    Except LLMErr String × Nat × List ℚ :=
  retryGo f d 0 retryAttempts

/-- The seven syntax tokens escaped by `_escape_special_chars`, in source
order. -/
def remTokens : List (List Char) :=
  [[':', ':'], ['>', '>'], ['<', '<'], [';', ';'], ['<', '>'], ['#', '[', '['], [']', ']']]

/-- The self-overlapping patterns under which a single replacement pass
can leave a fresh token occurrence behind (e.g. `:::` becomes `: ::`). -/
def tripleGuards : List (List Char) :=
  [[':', ':', ':'], ['>', '>', '>'], ['<', '<', '<'], [';', ';', ';'], [']', ']', ']']]

/-- Two cards exercising the hierarchical formatter: a root concept card
and a basic card whose parent string equals the root's front. -/
def matchedParentCards : List Flashcard :=
  [{ card_type := CardType.concept, front := "R", back := "Rb",
     direction := CardDirection.bidirectional },
   { card_type := CardType.basic, front := "Q", back := "Qb", parent := some "R" }]

/-- A three-level parent chain: root `A`, child `B` (parent = `A`'s front),
grandchild `C` (parent = `B`'s front). -/
def parentChainCards : List Flashcard :=
  [{ card_type := CardType.concept, front := "A", back := "defA",
     direction := CardDirection.bidirectional },
   { card_type := CardType.concept, front := "B", back := "defB", parent := some "A",
     direction := CardDirection.bidirectional },
   { card_type := CardType.concept, front := "C", back := "defC", parent := some "B",
     direction := CardDirection.bidirectional }]

/-- A list-answer card with two list items. -/
def listAnswerExample : Flashcard :=
  { card_type := CardType.list_answer, front := "F", back := "", list_items := ["a", "b"] }

/-- Unit-token prefix test is a head test. -/
theorem starts_single (q : Char) (u : List Char) : starts [q] u = (u.head? == some q) := by
  cases u with
  | nil => simp [starts]
  | cons c rest => simp [starts, BEq.comm]

/-- A token absent from `c :: u` is absent from `u`. -/
theorem hasTok_cons_false {t : List Char} {c : Char} {u : List Char}
    (h : hasTok t (c :: u) = false) : hasTok t u = false := by
  rw [hasTok, Bool.or_eq_false_iff] at h
  exact h.2

/-- A token absent from a list does not start it. -/
theorem starts_false_of_hasTok_false {t : List Char} {u : List Char}
    (h : hasTok t u = false) : starts t u = false := by
  cases u with
  | nil => rw [hasTok] at h; exact h
  | cons c rest => rw [hasTok, Bool.or_eq_false_iff] at h; exact h.1

/-- The escaping pass preserves the head character. -/
theorem esc2_head (a b : Char) (s : List Char) : (esc2 a b s).head? = s.head? := by
  induction s using esc2.induct a b with
  | case1 x y rest h ih => rw [esc2, if_pos h]; rw [h.1]; rfl
  | case2 x y rest h ih => rw [esc2, if_neg h]; rfl
  | case3 s h =>
    cases s with
    | nil => rfl
    | cons c rest =>
      cases rest with
      | nil => rfl
      | cons d rest2 => exact absurd rfl (h c d rest2)

/-- The reference-escaping pass preserves the head character. -/
theorem escRef_head (s : List Char) : (escRef s).head? = s.head? := by
  induction s using escRef.induct with
  | case1 x y z rest h ih => rw [escRef, if_pos h]; rw [h.1]; rfl
  | case2 x y z rest h ih => rw [escRef, if_neg h]; rfl
  | case3 s h =>
    cases s with
    | nil => rfl
    | cons c rest =>
      cases rest with
      | nil => rfl
      | cons d rest2 =>
        cases rest2 with
        | nil => rfl
        | cons e rest3 => exact absurd rfl (h c d e rest3)

/-- A two-character token starting the output of an escaping pass either is
the head pair of the replacement or started the input. -/
theorem starts₂_esc2 (a b q r : Char) (u : List Char)
    (h : starts [q, r] (esc2 a b u) = true) :
    (q = a ∧ r = ' ') ∨ starts [q, r] u = true := by
  cases u with
  | nil =>
    rw [show esc2 a b [] = [] from rfl] at h
    simp [starts] at h
  | cons x rest =>
    cases rest with
    | nil =>
      rw [show esc2 a b [x] = [x] from rfl] at h
      simp [starts] at h
    | cons y rest2 =>
      by_cases hc : x = a ∧ y = b
      · rw [esc2, if_pos hc] at h
        simp only [starts, Bool.and_eq_true, beq_iff_eq] at h
        exact Or.inl ⟨h.1, h.2.1⟩
      · rw [esc2, if_neg hc] at h
        simp only [starts, Bool.and_eq_true, beq_iff_eq] at h
        obtain ⟨hq, hr⟩ := h
        rw [starts_single, esc2_head] at hr
        simp only [List.head?, beq_iff_eq, Option.some.injEq] at hr
        right
        simp [starts, hq, hr]

/-- A two-character token starting the output of the reference pass either
is the head pair of the replacement or started the input. -/
theorem starts₂_escRef (q r : Char) (u : List Char)
    (h : starts [q, r] (escRef u) = true) :
    (q = '#' ∧ r = ' ') ∨ starts [q, r] u = true := by
  cases u with
  | nil =>
    rw [show escRef [] = [] from rfl] at h
    simp [starts] at h
  | cons x rest =>
    cases rest with
    | nil =>
      rw [show escRef [x] = [x] from rfl] at h
      simp [starts] at h
    | cons y rest2 =>
      cases rest2 with
      | nil =>
        rw [show escRef [x, y] = [x, y] from rfl] at h
        simp only [starts, Bool.and_eq_true, beq_iff_eq] at h
        right
        simp [starts, h.1, h.2.1]
      | cons z rest3 =>
        by_cases hc : x = '#' ∧ y = '[' ∧ z = '['
        · rw [escRef, if_pos hc] at h
          simp only [starts, Bool.and_eq_true, beq_iff_eq] at h
          exact Or.inl ⟨h.1, h.2.1⟩
        · rw [escRef, if_neg hc] at h
          simp only [starts, Bool.and_eq_true, beq_iff_eq] at h
          obtain ⟨hq, hr⟩ := h
          rw [starts_single, escRef_head] at hr
          simp only [List.head?, beq_iff_eq, Option.some.injEq] at hr
          right
          simp [starts, hq, hr]

/-- Two-bracket prefixes are reflected by the reference pass. -/
theorem starts_brackets_escRef (u : List Char)
    (h : starts ['[', '['] (escRef u) = true) : starts ['[', '['] u = true := by
  rcases starts₂_escRef '[' '[' u h with ⟨h1, _⟩ | h2
  · exact absurd h1 (by decide)
  · exact h2

/-- A unit token starts the output of an escaping pass iff it starts the
input (the pass preserves the head character). -/
theorem starts_one_esc2 (q a b : Char) (u : List Char) :
    starts [q] (esc2 a b u) = starts [q] u := by
  rw [starts_single, starts_single, esc2_head]

/-- A unit token starts the output of the reference pass iff it starts the
input. -/
theorem starts_one_escRef (q : Char) (u : List Char) :
    starts [q] (escRef u) = starts [q] u := by
  rw [starts_single, starts_single, escRef_head]

/-- An escaping pass cannot create a new occurrence of a space-free
two-character token: if `pq` does not occur in `s`, it does not occur in
`esc2 a b s` either. -/
theorem esc2_keep₂ (a b p q : Char) (hp : p ≠ ' ') (hq : q ≠ ' ') :
    ∀ s, hasTok [p, q] s = false → hasTok [p, q] (esc2 a b s) = false := by
  intro s
  induction s using esc2.induct a b with
  | case1 x y rest h ih =>
    intro habs
    obtain ⟨rfl, rfl⟩ := h
    have habs2 : starts [p, q] (y :: rest) = false :=
      starts_false_of_hasTok_false (hasTok_cons_false habs)
    have habs3 : hasTok [p, q] rest = false := hasTok_cons_false (hasTok_cons_false habs)
    rw [esc2, if_pos ⟨rfl, rfl⟩]
    rw [hasTok, hasTok, hasTok]
    simp only [Bool.or_eq_false_iff]
    refine ⟨?_, ?_, ?_, ih habs3⟩
    · show (p == x && starts [q] (' ' :: y :: esc2 x y rest)) = false
      show (p == x && (q == ' ' && starts [] (y :: esc2 x y rest))) = false
      simp [hq]
    · show (p == ' ' && starts [q] (y :: esc2 x y rest)) = false
      simp [hp]
    · show (p == y && starts [q] (esc2 x y rest)) = false
      rw [starts_one_esc2]
      exact habs2
  | case2 x y rest h ih =>
    intro habs
    rw [esc2, if_neg h, hasTok]
    simp only [Bool.or_eq_false_iff]
    refine ⟨?_, ih (hasTok_cons_false habs)⟩
    show (p == x && starts [q] (esc2 a b (y :: rest))) = false
    rw [starts_one_esc2]
    exact starts_false_of_hasTok_false habs
  | case3 s h =>
    intro habs
    cases s with
    | nil => exact habs
    | cons c rest =>
      cases rest with
      | nil => exact habs
      | cons d rest2 => exact absurd rfl (h c d rest2)

/-- An escaping pass cannot create a new occurrence of a space-free
three-character token. -/
theorem esc2_keep₃ (a b p q r : Char) (hp : p ≠ ' ') (hq : q ≠ ' ') (hr : r ≠ ' ') :
    ∀ s, hasTok [p, q, r] s = false → hasTok [p, q, r] (esc2 a b s) = false := by
  intro s
  induction s using esc2.induct a b with
  | case1 x y rest h ih =>
    intro habs
    obtain ⟨rfl, rfl⟩ := h
    have habs2 : starts [p, q, r] (y :: rest) = false :=
      starts_false_of_hasTok_false (hasTok_cons_false habs)
    have habs3 : hasTok [p, q, r] rest = false := hasTok_cons_false (hasTok_cons_false habs)
    rw [esc2, if_pos ⟨rfl, rfl⟩]
    rw [hasTok, hasTok, hasTok]
    simp only [Bool.or_eq_false_iff]
    refine ⟨?_, ?_, ?_, ih habs3⟩
    · show (p == x && (q == ' ' && starts [r] (y :: esc2 x y rest))) = false
      simp [hq]
    · show (p == ' ' && starts [q, r] (y :: esc2 x y rest)) = false
      simp [hp]
    · show (p == y && starts [q, r] (esc2 x y rest)) = false
      cases hs : starts [q, r] (esc2 x y rest) with
      | false => simp [hs]
      | true =>
        rcases starts₂_esc2 x y q r rest hs with hrep | hstart
        · exact absurd hrep.2 hr
        · cases hpv : (p == y) with
          | false => simp [hpv]
          | true =>
            exfalso
            have hcontra : starts [p, q, r] (y :: rest) = true := by
              show (p == y && starts [q, r] rest) = true
              rw [hpv, hstart]
              rfl
            rw [habs2] at hcontra
            exact Bool.noConfusion hcontra
  | case2 x y rest h ih =>
    intro habs
    have habs1 : starts [p, q, r] (x :: y :: rest) = false := starts_false_of_hasTok_false habs
    rw [esc2, if_neg h, hasTok]
    simp only [Bool.or_eq_false_iff]
    refine ⟨?_, ih (hasTok_cons_false habs)⟩
    show (p == x && starts [q, r] (esc2 a b (y :: rest))) = false
    cases hs : starts [q, r] (esc2 a b (y :: rest)) with
    | false => simp [hs]
    | true =>
      rcases starts₂_esc2 a b q r (y :: rest) hs with hrep | hstart
      · exact absurd hrep.2 hr
      · cases hpv : (p == x) with
        | false => simp [hpv]
        | true =>
          exfalso
          have hcontra : starts [p, q, r] (x :: y :: rest) = true := by
            show (p == x && starts [q, r] (y :: rest)) = true
            rw [hpv, hstart]
            rfl
          rw [habs1] at hcontra
          exact Bool.noConfusion hcontra
  | case3 s h =>
    intro habs
    cases s with
    | nil => exact habs
    | cons c rest =>
      cases rest with
      | nil => exact habs
      | cons d rest2 => exact absurd rfl (h c d rest2)

/-- The pass for a doubled token `aa` eliminates every occurrence of `aa`,
provided the input contains no tripled occurrence `aaa` (the residue of
one replacement would otherwise abut the next character and re-form the
token, e.g. `:::` escapes to `: ::`). -/
theorem esc2_elim_pair (a : Char) (ha : a ≠ ' ') :
    ∀ s, hasTok [a, a, a] s = false → hasTok [a, a] (esc2 a a s) = false := by
  intro s
  induction s using esc2.induct a a with
  | case1 x y rest h ih =>
    intro hguard
    rw [h.1, h.2] at hguard ⊢
    have hg1 : starts [a, a, a] (a :: a :: rest) = false := starts_false_of_hasTok_false hguard
    have hg3 : hasTok [a, a, a] rest = false := hasTok_cons_false (hasTok_cons_false hguard)
    have hrest : starts [a] rest = false := by
      have h' : (a == a && (a == a && starts [a] rest)) = false := hg1
      simpa using h'
    rw [esc2, if_pos ⟨rfl, rfl⟩]
    rw [hasTok, hasTok, hasTok]
    simp only [Bool.or_eq_false_iff]
    refine ⟨?_, ?_, ?_, ih hg3⟩
    · show (a == a && (a == ' ' && starts [] (a :: esc2 a a rest))) = false
      simp [ha]
    · show (a == ' ' && starts [a] (a :: esc2 a a rest)) = false
      simp [ha]
    · show (a == a && starts [a] (esc2 a a rest)) = false
      rw [starts_one_esc2]
      simp [hrest]
  | case2 x y rest h ih =>
    intro hguard
    rw [esc2, if_neg h, hasTok]
    simp only [Bool.or_eq_false_iff]
    refine ⟨?_, ih (hasTok_cons_false hguard)⟩
    show (a == x && starts [a] (esc2 a a (y :: rest))) = false
    rw [starts_one_esc2]
    show (a == x && (a == y && starts [] rest)) = false
    rcases Decidable.em (x = a) with hxa | hxa
    · rcases Decidable.em (y = a) with hya | hya
      · exact absurd ⟨hxa, hya⟩ h
      · simp [Ne.symm hya]
    · simp [Ne.symm hxa]
  | case3 s h =>
    intro hguard
    cases s with
    | nil => simp [hasTok, starts]
    | cons c rest =>
      cases rest with
      | nil => simp [hasTok, starts]
      | cons d rest2 => exact absurd rfl (h c d rest2)

/-- The pass for a two-character token `ab` with distinct halves
eliminates every occurrence of `ab` unconditionally. -/
theorem esc2_elim_ne (a b : Char) (hab : a ≠ b) (ha : a ≠ ' ') (hb : b ≠ ' ') :
    ∀ s, hasTok [a, b] (esc2 a b s) = false := by
  intro s
  induction s using esc2.induct a b with
  | case1 x y rest h ih =>
    rw [h.1, h.2]
    rw [esc2, if_pos ⟨rfl, rfl⟩]
    rw [hasTok, hasTok, hasTok]
    simp only [Bool.or_eq_false_iff]
    refine ⟨?_, ?_, ?_, ih⟩
    · show (a == a && (b == ' ' && starts [] (b :: esc2 a b rest))) = false
      simp [hb]
    · show (a == ' ' && starts [b] (b :: esc2 a b rest)) = false
      simp [ha]
    · show (a == b && starts [b] (esc2 a b rest)) = false
      simp [hab]
  | case2 x y rest h ih =>
    rw [esc2, if_neg h, hasTok]
    simp only [Bool.or_eq_false_iff]
    refine ⟨?_, ih⟩
    show (a == x && starts [b] (esc2 a b (y :: rest))) = false
    rw [starts_one_esc2]
    show (a == x && (b == y && starts [] rest)) = false
    rcases Decidable.em (x = a) with hxa | hxa
    · rcases Decidable.em (y = b) with hyb | hyb
      · exact absurd ⟨hxa, hyb⟩ h
      · simp [Ne.symm hyb]
    · simp [Ne.symm hxa]
  | case3 s h =>
    cases s with
    | nil => simp [hasTok, starts]
    | cons c rest =>
      cases rest with
      | nil => simp [hasTok, starts]
      | cons d rest2 => exact absurd rfl (h c d rest2)

/-- The reference pass eliminates every occurrence of `#[[`. -/
theorem escRef_elim : ∀ s, hasTok ['#', '[', '['] (escRef s) = false := by
  intro s
  induction s using escRef.induct with
  | case1 x y z rest h ih =>
    rw [h.1, h.2.1, h.2.2]
    rw [escRef, if_pos ⟨rfl, rfl, rfl⟩]
    rw [hasTok, hasTok, hasTok, hasTok]
    simp only [Bool.or_eq_false_iff]
    refine ⟨?_, ?_, ?_, ?_, ih⟩
    · show ('#' == '#' && ('[' == ' ' && starts ['['] ('[' :: '[' :: escRef rest))) = false
      simp
    · show ('#' == ' ' && starts ['[', '['] ('[' :: '[' :: escRef rest)) = false
      simp
    · show ('#' == '[' && starts ['[', '['] ('[' :: escRef rest)) = false
      simp
    · show ('#' == '[' && starts ['[', '['] (escRef rest)) = false
      simp
  | case2 x y z rest h ih =>
    rw [escRef, if_neg h, hasTok]
    simp only [Bool.or_eq_false_iff]
    refine ⟨?_, ih⟩
    show ('#' == x && starts ['[', '['] (escRef (y :: z :: rest))) = false
    cases hs : starts ['[', '['] (escRef (y :: z :: rest)) with
    | false => simp [hs]
    | true =>
      have hyz : starts ['[', '['] (y :: z :: rest) = true := starts_brackets_escRef _ hs
      have h' : ('[' == y && ('[' == z && starts [] rest)) = true := hyz
      rw [Bool.and_eq_true, Bool.and_eq_true] at h'
      obtain ⟨e1, e2, _⟩ := h'
      simp only [beq_iff_eq] at e1 e2
      cases hxv : ('#' == x) with
      | false => simp [hxv]
      | true =>
        simp only [beq_iff_eq] at hxv
        exact absurd ⟨hxv.symm, e1.symm, e2.symm⟩ h
  | case3 s h =>
    cases s with
    | nil => simp [hasTok, starts]
    | cons c rest =>
      cases rest with
      | nil => simp [hasTok, starts]
      | cons d rest2 =>
        cases rest2 with
        | nil => simp [hasTok, starts]
        | cons e rest3 => exact absurd rfl (h c d e rest3)

/-- The reference pass cannot create a new occurrence of a space-free
two-character token. -/
theorem escRef_keep₂ (p q : Char) (hp : p ≠ ' ') (hq : q ≠ ' ') :
    ∀ s, hasTok [p, q] s = false → hasTok [p, q] (escRef s) = false := by
  intro s
  induction s using escRef.induct with
  | case1 x y z rest h ih =>
    intro habs
    rw [h.1, h.2.1, h.2.2] at habs ⊢
    have habs2 : starts [p, q] ('[' :: '[' :: rest) = false :=
      starts_false_of_hasTok_false (hasTok_cons_false habs)
    have habs3 : starts [p, q] ('[' :: rest) = false :=
      starts_false_of_hasTok_false (hasTok_cons_false (hasTok_cons_false habs))
    have habs4 : hasTok [p, q] rest = false :=
      hasTok_cons_false (hasTok_cons_false (hasTok_cons_false habs))
    rw [escRef, if_pos ⟨rfl, rfl, rfl⟩]
    rw [hasTok, hasTok, hasTok, hasTok]
    simp only [Bool.or_eq_false_iff]
    refine ⟨?_, ?_, ?_, ?_, ih habs4⟩
    · show (p == '#' && (q == ' ' && starts [] ('[' :: '[' :: escRef rest))) = false
      simp [hq]
    · show (p == ' ' && starts [q] ('[' :: '[' :: escRef rest)) = false
      simp [hp]
    · exact habs2
    · show (p == '[' && starts [q] (escRef rest)) = false
      rw [starts_one_escRef]
      exact habs3
  | case2 x y z rest h ih =>
    intro habs
    rw [escRef, if_neg h, hasTok]
    simp only [Bool.or_eq_false_iff]
    refine ⟨?_, ih (hasTok_cons_false habs)⟩
    show (p == x && starts [q] (escRef (y :: z :: rest))) = false
    rw [starts_one_escRef]
    exact starts_false_of_hasTok_false habs
  | case3 s h =>
    intro habs
    cases s with
    | nil => exact habs
    | cons c rest =>
      cases rest with
      | nil => exact habs
      | cons d rest2 =>
        cases rest2 with
        | nil => exact habs
        | cons e rest3 => exact absurd rfl (h c d e rest3)

/-- The reference pass cannot create a new occurrence of a space-free
three-character token. -/
theorem escRef_keep₃ (p q r : Char) (hp : p ≠ ' ') (hq : q ≠ ' ') (hr : r ≠ ' ') :
    ∀ s, hasTok [p, q, r] s = false → hasTok [p, q, r] (escRef s) = false := by
  intro s
  induction s using escRef.induct with
  | case1 x y z rest h ih =>
    intro habs
    rw [h.1, h.2.1, h.2.2] at habs ⊢
    have habs2 : starts [p, q, r] ('[' :: '[' :: rest) = false :=
      starts_false_of_hasTok_false (hasTok_cons_false habs)
    have habs3 : starts [p, q, r] ('[' :: rest) = false :=
      starts_false_of_hasTok_false (hasTok_cons_false (hasTok_cons_false habs))
    have habs4 : hasTok [p, q, r] rest = false :=
      hasTok_cons_false (hasTok_cons_false (hasTok_cons_false habs))
    rw [escRef, if_pos ⟨rfl, rfl, rfl⟩]
    rw [hasTok, hasTok, hasTok, hasTok]
    simp only [Bool.or_eq_false_iff]
    refine ⟨?_, ?_, ?_, ?_, ih habs4⟩
    · show (p == '#' && (q == ' ' && starts [r] ('[' :: '[' :: escRef rest))) = false
      simp [hq]
    · show (p == ' ' && starts [q, r] ('[' :: '[' :: escRef rest)) = false
      simp [hp]
    · show (p == '[' && (q == '[' && starts [r] (escRef rest))) = false
      rw [starts_one_escRef]
      exact habs2
    · show (p == '[' && starts [q, r] (escRef rest)) = false
      cases hs : starts [q, r] (escRef rest) with
      | false => simp [hs]
      | true =>
        rcases starts₂_escRef q r rest hs with hrep | hstart
        · exact absurd hrep.2 hr
        · cases hpv : (p == '[') with
          | false => simp [hpv]
          | true =>
            exfalso
            have hcontra : starts [p, q, r] ('[' :: rest) = true := by
              show (p == '[' && starts [q, r] rest) = true
              rw [hpv, hstart]
              rfl
            rw [habs3] at hcontra
            exact Bool.noConfusion hcontra
  | case2 x y z rest h ih =>
    intro habs
    have habs1 : starts [p, q, r] (x :: y :: z :: rest) = false := starts_false_of_hasTok_false habs
    rw [escRef, if_neg h, hasTok]
    simp only [Bool.or_eq_false_iff]
    refine ⟨?_, ih (hasTok_cons_false habs)⟩
    show (p == x && starts [q, r] (escRef (y :: z :: rest))) = false
    cases hs : starts [q, r] (escRef (y :: z :: rest)) with
    | false => simp [hs]
    | true =>
      rcases starts₂_escRef q r (y :: z :: rest) hs with hrep | hstart
      · exact absurd hrep.2 hr
      · cases hpv : (p == x) with
        | false => simp [hpv]
        | true =>
          exfalso
          have hcontra : starts [p, q, r] (x :: y :: z :: rest) = true := by
            show (p == x && starts [q, r] (y :: z :: rest)) = true
            rw [hpv, hstart]
            rfl
          rw [habs1] at hcontra
          exact Bool.noConfusion hcontra
  | case3 s h =>
    intro habs
    cases s with
    | nil => exact habs
    | cons c rest =>
      cases rest with
      | nil => exact habs
      | cons d rest2 =>
        cases rest2 with
        | nil => exact habs
        | cons e rest3 => exact absurd rfl (h c d e rest3)

/-- The conditional brace-breaking step cannot create a space-free
two-character token. -/
theorem clozeBraceFix_keep₂ (p q : Char) (hp : p ≠ ' ') (hq : q ≠ ' ')
    (u : List Char) (h : hasTok [p, q] u = false) :
    hasTok [p, q] (clozeBraceFix u) = false := by
  unfold clozeBraceFix
  split
  · exact esc2_keep₂ '\x7d' '\x7d' p q hp hq _ (esc2_keep₂ '\x7b' '\x7b' p q hp hq _ h)
  · exact h

/-- The conditional brace-breaking step cannot create a space-free
three-character token. -/
theorem clozeBraceFix_keep₃ (p q r : Char) (hp : p ≠ ' ') (hq : q ≠ ' ') (hr : r ≠ ' ')
    (u : List Char) (h : hasTok [p, q, r] u = false) :
    hasTok [p, q, r] (clozeBraceFix u) = false := by
  unfold clozeBraceFix
  split
  · exact esc2_keep₃ '\x7d' '\x7d' p q r hp hq hr _ (esc2_keep₃ '\x7b' '\x7b' p q r hp hq hr _ h)
  · exact h

/-- C1 (amended): the escaper applies one left-to-right non-overlapping
replacement pass per token of the fixed set, in source order, uniformly
over the whole text (occurrences inside `{{...}}` cloze spans included);
for every input containing none of the self-overlapping patterns `:::`,
`>>>`, `<<<`, `;;;`, `]]]`, the escaped text contains no occurrence of any
of the seven tokens `::`, `>>`, `<<`, `;;`, `<>`, `#[[`, `]]`. -/
theorem escape_no_token_remains (s : List Char)
    (hg : ∀ g ∈ tripleGuards, hasTok g s = false) :
    ∀ t ∈ remTokens, hasTok t (escapeChars s) = false := by
  have g1 : hasTok [':', ':', ':'] s = false := hg _ (by simp [tripleGuards])
  have g2 : hasTok ['>', '>', '>'] s = false := hg _ (by simp [tripleGuards])
  have g3 : hasTok ['<', '<', '<'] s = false := hg _ (by simp [tripleGuards])
  have g4 : hasTok [';', ';', ';'] s = false := hg _ (by simp [tripleGuards])
  have g5 : hasTok [']', ']', ']'] s = false := hg _ (by simp [tripleGuards])
  -- pass 1: `::`
  have a1 : hasTok [':', ':'] (esc2 ':' ':' s) = false :=
    esc2_elim_pair ':' (by decide) s g1
  have g2a := esc2_keep₃ ':' ':' '>' '>' '>' (by decide) (by decide) (by decide) s g2
  have g3a := esc2_keep₃ ':' ':' '<' '<' '<' (by decide) (by decide) (by decide) s g3
  have g4a := esc2_keep₃ ':' ':' ';' ';' ';' (by decide) (by decide) (by decide) s g4
  have g5a := esc2_keep₃ ':' ':' ']' ']' ']' (by decide) (by decide) (by decide) s g5
  -- pass 2: `>>`
  have a1b := esc2_keep₂ '>' '>' ':' ':' (by decide) (by decide) _ a1
  have a2b : hasTok ['>', '>'] (esc2 '>' '>' (esc2 ':' ':' s)) = false :=
    esc2_elim_pair '>' (by decide) _ g2a
  have g3b := esc2_keep₃ '>' '>' '<' '<' '<' (by decide) (by decide) (by decide) _ g3a
  have g4b := esc2_keep₃ '>' '>' ';' ';' ';' (by decide) (by decide) (by decide) _ g4a
  have g5b := esc2_keep₃ '>' '>' ']' ']' ']' (by decide) (by decide) (by decide) _ g5a
  -- pass 3: `<<`
  have a1c := esc2_keep₂ '<' '<' ':' ':' (by decide) (by decide) _ a1b
  have a2c := esc2_keep₂ '<' '<' '>' '>' (by decide) (by decide) _ a2b
  have a3c : hasTok ['<', '<'] (esc2 '<' '<' (esc2 '>' '>' (esc2 ':' ':' s))) = false :=
    esc2_elim_pair '<' (by decide) _ g3b
  have g4c := esc2_keep₃ '<' '<' ';' ';' ';' (by decide) (by decide) (by decide) _ g4b
  have g5c := esc2_keep₃ '<' '<' ']' ']' ']' (by decide) (by decide) (by decide) _ g5b
  -- pass 4: `;;`
  have a1d := esc2_keep₂ ';' ';' ':' ':' (by decide) (by decide) _ a1c
  have a2d := esc2_keep₂ ';' ';' '>' '>' (by decide) (by decide) _ a2c
  have a3d := esc2_keep₂ ';' ';' '<' '<' (by decide) (by decide) _ a3c
  have a4d : hasTok [';', ';']
      (esc2 ';' ';' (esc2 '<' '<' (esc2 '>' '>' (esc2 ':' ':' s)))) = false :=
    esc2_elim_pair ';' (by decide) _ g4c
  have g5d := esc2_keep₃ ';' ';' ']' ']' ']' (by decide) (by decide) (by decide) _ g5c
  -- pass 5: `<>`
  have a1e := esc2_keep₂ '<' '>' ':' ':' (by decide) (by decide) _ a1d
  have a2e := esc2_keep₂ '<' '>' '>' '>' (by decide) (by decide) _ a2d
  have a3e := esc2_keep₂ '<' '>' '<' '<' (by decide) (by decide) _ a3d
  have a4e := esc2_keep₂ '<' '>' ';' ';' (by decide) (by decide) _ a4d
  have a5e : hasTok ['<', '>']
      (esc2 '<' '>' (esc2 ';' ';' (esc2 '<' '<' (esc2 '>' '>' (esc2 ':' ':' s))))) = false :=
    esc2_elim_ne '<' '>' (by decide) (by decide) (by decide) _
  have g5e := esc2_keep₃ '<' '>' ']' ']' ']' (by decide) (by decide) (by decide) _ g5d
  -- pass 6: `#[[`
  have a1f := escRef_keep₂ ':' ':' (by decide) (by decide) _ a1e
  have a2f := escRef_keep₂ '>' '>' (by decide) (by decide) _ a2e
  have a3f := escRef_keep₂ '<' '<' (by decide) (by decide) _ a3e
  have a4f := escRef_keep₂ ';' ';' (by decide) (by decide) _ a4e
  have a5f := escRef_keep₂ '<' '>' (by decide) (by decide) _ a5e
  have a6f : hasTok ['#', '[', '[']
      (escRef (esc2 '<' '>' (esc2 ';' ';' (esc2 '<' '<' (esc2 '>' '>' (esc2 ':' ':' s))))))
      = false := escRef_elim _
  have g5f := escRef_keep₃ ']' ']' ']' (by decide) (by decide) (by decide) _ g5e
  -- pass 7: `]]`
  have a1g := esc2_keep₂ ']' ']' ':' ':' (by decide) (by decide) _ a1f
  have a2g := esc2_keep₂ ']' ']' '>' '>' (by decide) (by decide) _ a2f
  have a3g := esc2_keep₂ ']' ']' '<' '<' (by decide) (by decide) _ a3f
  have a4g := esc2_keep₂ ']' ']' ';' ';' (by decide) (by decide) _ a4f
  have a5g := esc2_keep₂ ']' ']' '<' '>' (by decide) (by decide) _ a5f
  have a6g := esc2_keep₃ ']' ']' '#' '[' '[' (by decide) (by decide) (by decide) _ a6f
  have a7g : hasTok [']', ']'] (tokensEsc s) = false :=
    esc2_elim_pair ']' (by decide) _ g5f
  -- conditional brace fix
  intro t ht
  simp only [remTokens, List.mem_cons, List.not_mem_nil, or_false] at ht
  rcases ht with rfl | rfl | rfl | rfl | rfl | rfl | rfl
  · exact clozeBraceFix_keep₂ ':' ':' (by decide) (by decide) _ a1g
  · exact clozeBraceFix_keep₂ '>' '>' (by decide) (by decide) _ a2g
  · exact clozeBraceFix_keep₂ '<' '<' (by decide) (by decide) _ a3g
  · exact clozeBraceFix_keep₂ ';' ';' (by decide) (by decide) _ a4g
  · exact clozeBraceFix_keep₂ '<' '>' (by decide) (by decide) _ a5g
  · exact clozeBraceFix_keep₃ '#' '[' '[' (by decide) (by decide) (by decide) _ a6g
  · exact clozeBraceFix_keep₂ ']' ']' (by decide) (by decide) _ a7g


/-- C1 (counterexample): the escaper does not guarantee that the emitted
text is free of un-neutralized tokens (the pass over `:::` leaves `: ::`,
which still contains `::`), and a `::` inside a validated cloze span is
escaped rather than preserved. -/
theorem escape_counterexample :
    escapeSpecialChars ":::" = ": ::" ∧
    hasTok [':', ':'] (escapeSpecialChars ":::").data = true ∧
    hasValidClozeB "A \x7b\x7bB::C\x7d\x7d".data = true ∧
    escapeSpecialChars "A \x7b\x7bB::C\x7d\x7d" = "A \x7b\x7bB: :C\x7d\x7d" :=
  ⟨by decide, by decide, by decide, by decide⟩

/-- C1 (witness): on the concrete input `a::b`, which satisfies the
no-self-overlap guard, the escaped text contains none of the seven
tokens. -/
theorem escape_no_token_remains_witness :
    (∀ g ∈ tripleGuards, hasTok g "a::b".data = false) ∧
    (∀ t ∈ remTokens, hasTok t (escapeChars "a::b".data) = false) :=
  ⟨by decide, escape_no_token_remains _ (by decide)⟩

/-- C2 (code bug): a card whose parent string equals a root card's front
is emitted twice by hierarchical formatting — once indented beneath the
root and once more beneath a duplicated top-level `# R` parent group —
because the processed-parents set is never seeded with the parents
already handled by the root-card loop. -/
theorem hierarchical_duplicate_emission :
    formatCards matchedParentCards true
      = "# R :: Rb\n    # Q >> Qb\n# R\n    # Q >> Qb" := by decide

/-- C3 (code bug): for a list-answer card with non-empty list items the
serializer emits only `front >>1.`; no list item appears in the emitted
text. -/
theorem list_answer_items_dropped :
    formatCard listAnswerExample = "F >>1." ∧
    hasTok "a".data (formatCard listAnswerExample).data = false ∧
    hasTok "b".data (formatCard listAnswerExample).data = false :=
  ⟨by decide, by decide, by decide⟩

/-- C4 (code bug): on a three-level parent chain the grandchild is never
emitted one level deeper than the child; the hierarchy pass does not
recurse, so the grandchild appears at single indentation under a
duplicated top-level `# B` group and no line of the output carries two
indentation levels (eight spaces). -/
theorem hierarchy_two_level_flattening :
    formatCards parentChainCards true
      = "# A :: defA\n    # B :: defB\n# A\n    # B :: defB\n# B\n    # C :: defC" ∧
    hasTok "        #".data (formatCards parentChainCards true).data = false :=
  ⟨by decide, by decide⟩

/-- C5 (counterexample): a cloze card whose front has no well-formed span
is emitted verbatim, not escaped (`A::B {{C` keeps its `::`), and a
disabled-direction cloze card is not emitted as its front at all. -/
theorem cloze_counterexample :
    formatCard { card_type := CardType.cloze, front := "A::B \x7b\x7bC", back := "" }
      = "A::B \x7b\x7bC" ∧
    escapeSpecialChars "A::B \x7b\x7bC" = "A: :B \x7b\x7bC" ∧
    hasValidClozeB "A::B \x7b\x7bC".data = false ∧
    formatCard { card_type := CardType.cloze, front := "X \x7b\x7bY\x7d\x7d", back := "",
                 direction := CardDirection.disabled }
      = "X \x7b\x7bY\x7d\x7d =- " :=
  ⟨by decide, by decide, by decide, by decide⟩

/-- C5 (amended): every cloze card whose direction is not disabled is
emitted as its front verbatim — with the span intact when a well-formed
`{{...}}` span is present, and as raw unescaped text when none is — and
formatting never fails. -/
theorem cloze_front_verbatim (card : Flashcard)
    (htype : card.card_type = CardType.cloze)
    (hdir : card.direction ≠ CardDirection.disabled) :
    formatCard card = card.front := by
  unfold formatCard
  rw [if_neg hdir, htype]
  show formatCloze card = card.front
  unfold formatCloze
  split <;> rfl

/-- C5 (witness): a forward cloze card with a well-formed span passes
through verbatim. -/
theorem cloze_front_verbatim_witness :
    formatCard { card_type := CardType.cloze, front := "X causes \x7b\x7bY\x7d\x7d", back := "" }
      = "X causes \x7b\x7bY\x7d\x7d" :=
  cloze_front_verbatim _ rfl (by decide)

/-- C9: formatting an empty card list returns the empty string for both
values of the hierarchy flag. -/
theorem format_cards_empty :
    formatCards [] true = "" ∧ formatCards [] false = "" :=
  ⟨rfl, rfl⟩

/-- C7: the fingerprint is a pure function of (front, back, type tag,
direction, list items): any digest function applied to the content key
yields equal fingerprints for cards agreeing on those five fields. -/
theorem fingerprint_congruence (md5hex8 : String → String) (c1 c2 : Flashcard)
    (h1 : c1.front = c2.front) (h2 : c1.back = c2.back)
    (h3 : c1.card_type = c2.card_type) (h4 : c1.direction = c2.direction)
    (h5 : c1.list_items = c2.list_items) :
    sourceHash md5hex8 c1 = sourceHash md5hex8 c2 := by
  unfold sourceHash contentKey
  rw [h1, h2, h3, h4, h5]

/-- C7 (witness): two cards differing in tags and difficulty but agreeing
on the five fingerprinted fields get the same fingerprint. -/
theorem fingerprint_congruence_witness :
    sourceHash (fun s => s)
        { card_type := CardType.concept, front := "F", back := "B", tags := ["t"] }
      = sourceHash (fun s => s)
        { card_type := CardType.concept, front := "F", back := "B", difficulty := "easy" } :=
  fingerprint_congruence (fun s => s) _ _ rfl rfl rfl rfl rfl

/-- C6: two cards with equal fingerprints submitted to a session in which
that fingerprint is new: the first is accepted, the second is rejected,
the duplicates-avoided counter rises by exactly one on the second
submission, and in total exactly one card was registered. -/
theorem dedup_accepts_exactly_one (f : String → String) (c1 c2 : Flashcard) (st : GenState)
    (heq : sourceHash f c1 = sourceHash f c2)
    (hnew : sourceHash f c1 ∉ st.generatedCards) :
    (submitCard st (sourceHash f c1)).1 = true ∧
    (submitCard ((submitCard st (sourceHash f c1)).2) (sourceHash f c2)).1 = false ∧
    (submitCard ((submitCard st (sourceHash f c1)).2) (sourceHash f c2)).2.duplicatesAvoided
      = st.duplicatesAvoided + 1 ∧
    (submitCard ((submitCard st (sourceHash f c1)).2) (sourceHash f c2)).2.totalCards
      = st.totalCards + 1 := by
  rw [← heq]
  unfold submitCard isUniqueCard registerCard
  simp [hnew]

/-- C6 (witness): submitting the same concept card twice into a fresh
session accepts the first and drops the second with one duplicate
counted. -/
theorem dedup_accepts_exactly_one_witness :
    (submitCard initState
        (sourceHash (fun s => s) { card_type := CardType.concept, front := "F", back := "B" })).1
      = true ∧
    (submitCard
        (submitCard initState
          (sourceHash (fun s => s)
            { card_type := CardType.concept, front := "F", back := "B" })).2
        (sourceHash (fun s => s) { card_type := CardType.concept, front := "F", back := "B" })).1
      = false ∧
    (submitCard
        (submitCard initState
          (sourceHash (fun s => s)
            { card_type := CardType.concept, front := "F", back := "B" })).2
        (sourceHash (fun s => s)
          { card_type := CardType.concept, front := "F", back := "B" })).2.duplicatesAvoided
      = initState.duplicatesAvoided + 1 ∧
    (submitCard
        (submitCard initState
          (sourceHash (fun s => s)
            { card_type := CardType.concept, front := "F", back := "B" })).2
        (sourceHash (fun s => s)
          { card_type := CardType.concept, front := "F", back := "B" })).2.totalCards
      = initState.totalCards + 1 :=
  dedup_accepts_exactly_one (fun s => s) _ _ initState rfl (by decide)

/-- C10: the invariant total-cards = number of seen fingerprints holds for
the fresh state, is preserved by every guarded submission (an accepted
card adds exactly one fingerprint and one to the counter), by every whole
session, and by a statistics reset. -/
theorem dedup_invariant_preserved :
    statsInv initState ∧
    (∀ st h, statsInv st →
      statsInv (submitCard st h).2 ∧
      ((submitCard st h).1 = true →
        (submitCard st h).2.generatedCards.card = st.generatedCards.card + 1 ∧
        (submitCard st h).2.totalCards = st.totalCards + 1)) ∧
    (∀ st hs, statsInv st → statsInv (runSession st hs)) ∧
    (∀ st, statsInv (resetStats st)) := by
  have hsubmit : ∀ st h, statsInv st →
      statsInv (submitCard st h).2 ∧
      ((submitCard st h).1 = true →
        (submitCard st h).2.generatedCards.card = st.generatedCards.card + 1 ∧
        (submitCard st h).2.totalCards = st.totalCards + 1) := by
    intro st h hinv
    by_cases hmem : h ∈ st.generatedCards
    · constructor
      · unfold submitCard isUniqueCard
        simp only [if_pos hmem]
        exact hinv
      · intro haccept
        unfold submitCard isUniqueCard at haccept
        simp only [if_pos hmem] at haccept
        cases haccept
    · have hcard : (insert h st.generatedCards).card = st.generatedCards.card + 1 :=
        Finset.card_insert_of_not_mem hmem
      constructor
      · unfold submitCard isUniqueCard registerCard statsInv
        simp only [if_neg hmem]
        unfold statsInv at hinv
        simp [hcard, hinv]
      · intro _
        unfold submitCard isUniqueCard registerCard
        simp only [if_neg hmem]
        exact ⟨hcard, by trivial⟩
  refine ⟨by unfold statsInv initState; simp, hsubmit, ?_, ?_⟩
  · intro st hs
    induction hs generalizing st with
    | nil => intro hinv; exact hinv
    | cons h rest ih =>
      intro hinv
      exact ih _ ((hsubmit st h hinv).1)
  · intro st
    unfold resetStats statsInv initState
    simp

/-- C10 (witness): the invariant holds after running a concrete session
with a repeated fingerprint on the fresh state. -/
theorem dedup_invariant_preserved_witness :
    statsInv (runSession initState ["h1", "h2", "h1"]) :=
  dedup_invariant_preserved.2.2.1 initState ["h1", "h2", "h1"] (by decide)

/-- The retry loop invokes the wrapped function at most once per remaining
iteration. -/
theorem retryGo_calls_le (f : Nat → ReqResult) (d : ℚ) :
    ∀ rem attempt, (retryGo f d attempt rem).2.1 ≤ rem := by
  intro rem
  induction rem with
  | zero => intro attempt; simp [retryGo]
  | succ n ih =>
    intro attempt
    rw [retryGo]
    cases f attempt with
    | ok s => simp
    | rateLimited =>
      by_cases hn : n = 0
      · simp [hn]
      · simp only [if_neg hn]
        have := ih (attempt + 1)
        omega
    | failed =>
      by_cases hn : n = 0
      · simp [hn]
      · simp only [if_neg hn]
        have := ih (attempt + 1)
        omega

/-- Whenever at least one iteration remains, the loop makes at least one
invocation. -/
theorem retryGo_calls_pos (f : Nat → ReqResult) (d : ℚ) :
    ∀ rem attempt, 1 ≤ rem → 1 ≤ (retryGo f d attempt rem).2.1 := by
  intro rem
  cases rem with
  | zero => intro attempt h; omega
  | succ n =>
    intro attempt _
    rw [retryGo]
    cases f attempt with
    | ok s => simp
    | rateLimited =>
      by_cases hn : n = 0
      · simp [hn]
      · simp only [if_neg hn]; omega
    | failed =>
      by_cases hn : n = 0
      · simp [hn]
      · simp only [if_neg hn]; omega

/-- The slept delays are exactly `d * 2 ^ (attempt + i)` for the failed
non-final invocations `i = 0, 1, ...`, in order. -/
theorem retryGo_delays (f : Nat → ReqResult) (d : ℚ) :
    ∀ rem attempt, (retryGo f d attempt rem).2.2
      = (List.range ((retryGo f d attempt rem).2.1 - 1)).map (fun i => d * 2 ^ (attempt + i)) := by
  intro rem
  induction rem with
  | zero => intro attempt; simp [retryGo]
  | succ n ih =>
    intro attempt
    rw [retryGo]
    cases f attempt with
    | ok s => simp
    | rateLimited =>
      by_cases hn : n = 0
      · simp [hn]
      · simp only [if_neg hn]
        have hpos : 1 ≤ (retryGo f d (attempt + 1) n).2.1 :=
          retryGo_calls_pos f d n (attempt + 1) (by omega)
        have hc : (retryGo f d (attempt + 1) n).2.1 + 1 - 1
            = ((retryGo f d (attempt + 1) n).2.1 - 1) + 1 := by omega
        simp only [hc, List.range_succ_eq_map, List.map_cons, List.map_map]
        congr 1
        rw [ih (attempt + 1)]
        apply List.map_congr_left
        intro i _
        simp only [Function.comp_apply, Nat.succ_eq_add_one]
        have he : attempt + 1 + i = attempt + (i + 1) := by omega
        rw [he]
    | failed =>
      by_cases hn : n = 0
      · simp [hn]
      · simp only [if_neg hn]
        have hpos : 1 ≤ (retryGo f d (attempt + 1) n).2.1 :=
          retryGo_calls_pos f d n (attempt + 1) (by omega)
        have hc : (retryGo f d (attempt + 1) n).2.1 + 1 - 1
            = ((retryGo f d (attempt + 1) n).2.1 - 1) + 1 := by omega
        simp only [hc, List.range_succ_eq_map, List.map_cons, List.map_map]
        congr 1
        rw [ih (attempt + 1)]
        apply List.map_congr_left
        intro i _
        simp only [Function.comp_apply, Nat.succ_eq_add_one]
        have he : attempt + 1 + i = attempt + (i + 1) := by omega
        rw [he]

/-- If every invocation is rate-limited, the loop runs all its iterations
and finally re-raises the rate-limit error. -/
theorem retryGo_ratelimited (f : Nat → ReqResult) (d : ℚ)
    (hf : ∀ n, f n = ReqResult.rateLimited) :
    ∀ rem attempt, 1 ≤ rem →
      (retryGo f d attempt rem).1 = Except.error LLMErr.rateLimitError ∧
      (retryGo f d attempt rem).2.1 = rem := by
  intro rem
  induction rem with
  | zero => intro attempt h; omega
  | succ n ih =>
    intro attempt _
    rw [retryGo, hf attempt]
    by_cases hn : n = 0
    · simp [hn]
    · simp only [if_neg hn]
      have := ih (attempt + 1) (by omega)
      exact ⟨this.1, by simp [this.2]⟩

/-- C8: the wrapped function is invoked at most `retry_attempts` times;
the delay slept before retry number `n` (1-based) is
`retry_delay * 2 ^ (n - 1)`; and when every invocation is rate-limited
the call makes exactly `retry_attempts` invocations and terminates by
raising the rate-limit error, itself a generation failure (`LLMError`)
in the source's exception hierarchy. -/
theorem retry_backoff_spec (f : Nat → ReqResult) (d : ℚ) (retryAttempts : Nat) :
    (retryWithBackoff f d retryAttempts).2.1 ≤ retryAttempts ∧
    (retryWithBackoff f d retryAttempts).2.2
      = (List.range ((retryWithBackoff f d retryAttempts).2.1 - 1)).map (fun i => d * 2 ^ i) ∧
    ((∀ n, f n = ReqResult.rateLimited) → 1 ≤ retryAttempts →
      (retryWithBackoff f d retryAttempts).1 = Except.error LLMErr.rateLimitError ∧
      (retryWithBackoff f d retryAttempts).2.1 = retryAttempts ∧
      LLMErr.rateLimitError.isLLMError = true) := by
  refine ⟨retryGo_calls_le f d retryAttempts 0, ?_, ?_⟩
  · have := retryGo_delays f d retryAttempts 0
    simpa using this
  · intro hf hpos
    have := retryGo_ratelimited f d hf retryAttempts 0 hpos
    exact ⟨this.1, this.2, rfl⟩

/-- C8 (witness): with three configured attempts, base delay 2 and a
permanently rate-limited capability, all three invocations happen, the
delays are 2 and 4, and the rate-limit error is raised. -/
theorem retry_backoff_spec_witness :
    (retryWithBackoff (fun _ => ReqResult.rateLimited) 2 3).1
        = Except.error LLMErr.rateLimitError ∧
    (retryWithBackoff (fun _ => ReqResult.rateLimited) 2 3).2.1 = 3 ∧
    LLMErr.rateLimitError.isLLMError = true :=
  (retry_backoff_spec (fun _ => ReqResult.rateLimited) 2 3).2.2 (fun _ => rfl) (by omega)
